import Mathlib

/-!
Verification development for the substitution formatter of
`source/common/formatter/substitution_formatter.h`: the `%COMMAND(SUBCOMMAND):LENGTH%`
template parser (`SubstitutionFormatParser::parse`), the command-parser resolution
chain (built-in parsers, then user-supplied parsers, then the generic
`StreamInfoFormatterBase` fallback), the flat formatter
(`CommonFormatterBaseImpl`) and the structured formatter (`StructFormatterBase`).

The formatter is generic over the context type (`FormatterContext` in the C++);
here the context is a type parameter `γ`.  External collaborators (the concrete
built-in command parsers, the plain string/number providers and the
`StreamInfoFormatterBase` fallback, which live outside the studied source) enter
as parameters or are modelled from the spec where noted.
-/

namespace EnvoyFormatter

/-- JSON-like structured value (`ProtobufWkt::Value`): null, bool, number,
string, struct and list kinds.  The C++ number kind is a `double` that the code
under study only ever passes through (it never computes with it), so it is
embedded by an opaque integral carrier. -/
inductive Value where
  | null : Value
  | boolV (b : Bool) : Value
  | num (n : Int) : Value
  | str (s : String) : Value
  | struct (fields : List (String × Value)) : Value
  | list (elems : List Value) : Value

/-- Test for the null kind, `value.kind_case() == ProtobufWkt::Value::kNullValue`. -/
def Value.isNull : Value → Bool
  | .null => true
  | _ => false

/-- Projection `ProtobufWkt::Value::struct_value()`: the struct fields when the
value is a struct, and the default (empty) struct for every other kind. -/
def Value.structValue : Value → List (String × Value)
  | .struct fields => fields
  | _ => []

/-- Behaviour of an opaque command-produced formatter provider (an
implementation of `FormatterProviderBase`): an optional text for a context and
a typed value for a context. -/
structure CommandProviderImpl (γ : Type) where
  formatWithContext : γ → Option String
  formatValueWithContext : γ → Value

/-- Compiled provider (`FormatterProviderBase`): either one of the two plain
literal providers or an opaque provider returned by a command parser /
the fallback. -/
inductive Provider (γ : Type) where
  | plainString (s : String) : Provider γ
  | plainNumber (n : Int) : Provider γ
  | command (impl : CommandProviderImpl γ) : Provider γ

/-- Modelled from the spec: the text capability of a provider.
`PlainStringFormatterBase` and `PlainNumberFormatter` live outside the studied
source; per the spec they are literal providers, always yielding their literal
(the number rendered as text). An opaque command provider defers to its own
implementation. -/
def Provider.formatWithContext {γ : Type} : Provider γ → γ → Option String
  | .plainString s, _ => some s
  | .plainNumber n, _ => some (toString n)
  | .command impl, ctx => impl.formatWithContext ctx

/-- Modelled from the spec: the typed-value capability of a provider
(`formatValueWithContext`).  Plain providers yield their literal as a
string/number value; a command provider defers to its implementation. -/
def Provider.formatValueWithContext {γ : Type} : Provider γ → γ → Value
  | .plainString s, _ => .str s
  | .plainNumber n, _ => .num n
  | .command impl, ctx => impl.formatValueWithContext ctx

/-- Command parser (`CommandParserBase`): `parse(command, subcommand, max_length)`
returns a provider or null ("not mine"). -/
structure CommandParser (γ : Type) where
  parse : String → String → Option Nat → Option (Provider γ)

/-- Compile-time errors thrown by the formatter code (`EnvoyException`):
no valid command at a scan position, a LENGTH capture rejected by
`absl::SimpleAtoi` (an all-digit run exceeding `size_t`), and the unsupported
document kind of the structured builder.  `scanStuck` is an artifact of the
fuelled embedding of the scan loop and is proved unreachable from the
top-level entry points. -/
inductive FormatError where
  | noValidCommand (format : String) (pos : Nat) : FormatError
  | lengthNotInteger (given : String) : FormatError
  | unsupportedValueKind : FormatError
  | scanStuck : FormatError
deriving DecidableEq

/-- Message text of a compile-time error, as produced by the C++ `fmt::format` /
`absl::StrCat` / string literals. -/
def FormatError.message : FormatError → String
  | .noValidCommand format pos =>
      "Incorrect configuration: " ++ format ++
        ". Couldn't find valid command at position " ++ toString pos
  | .lengthNotInteger given => "Length must be an integer, given: " ++ given
  | .unsupportedValueKind =>
      "Only string values, nested structs, list values and number values are " ++
        "supported in structured access log format."
  | .scanStuck => "scan made no progress"

/-- Character class of the COMMAND capturing group of the token regex:
`A`-`Z`, `0`-`9` or `_`. -/
def isCommandChar (c : Char) : Bool :=
  c.isUpper || c.isDigit || c == '_'

/-- Decimal value of a digit string (what a successful `absl::SimpleAtoi`
reads off the LENGTH capturing group, always a non-empty digit run there). -/
def digitsToNat (ds : List Char) : Nat :=
  ds.foldl (fun n c => n * 10 + (c.toNat - 48)) 0

/-- Number of values of `size_t` on the targets the code runs on (64-bit). -/
def sizeTCount : Nat := 2 ^ 64

/-- Validation of the optional LENGTH capture (lines 119-127 of `parse`): an
absent group leaves `max_length` unset; a present group is read with
`absl::SimpleAtoi` into a `size_t`, which on the guaranteed non-empty digit
run fails exactly when the value overflows `size_t`, throwing "Length must be
an integer, given: ...". -/
def parseMaxLength : Option (List Char) → Except FormatError (Option Nat)
  | none => .ok none
  | some digits =>
    if digitsToNat digits < sizeTCount then .ok (some (digitsToNat digits))
    else .error (.lengthNotInteger (String.mk digits))

/-- Result of matching the anchored token regex
`^%((?:[A-Z]|[0-9]|_)+)(?:\(([^\)]*)\))?(?::([0-9]+))?%` against the tail of the
format starting right after a `%`: the COMMAND and SUBCOMMAND capturing groups
(an absent group captures the empty string, exactly as `std::smatch::str`
returns), the raw LENGTH capture (the digit run of `m.str(3)`, validated
separately by `parseMaxLength`), the unconsumed tail, and the total number of
characters of the whole match (`m.str(0).length()`, both `%` delimiters
included). -/
structure CommandMatch where
  command : String
  subcommand : String
  lengthDigits : Option (List Char)
  rest : List Char
  consumed : Nat
deriving DecidableEq, Repr

/-- Optional subcommand part of the token regex, `(?:\(([^\)]*)\))?`, applied
where the COMMAND run stopped: a `(` commits to a closing `)` (chars between
them captured); the regex fails at an unclosed `(` because no later
alternative can consume it; any other character leaves the group absent
(captured as the empty string).  Returns the capture, the number of characters
consumed and the unconsumed tail. -/
def matchSubcommand : List Char → Option (String × Nat × List Char)
  | '(' :: r2 =>
    match r2.span (fun c => c ≠ ')') with
    | (sub, ')' :: r4) => some (String.mk sub, sub.length + 2, r4)
    | _ => none
  | r1 => some ("", 0, r1)

/-- Optional length part of the token regex, `(?::([0-9]+))?`: a `:` commits
to a non-empty digit run (the regex fails otherwise, since no later
alternative can consume the `:`); any other character leaves the group
absent.  Returns the raw digit capture — the numeric conversion is a separate
`absl::SimpleAtoi` step, `parseMaxLength`. -/
def matchLength : List Char → Option (Option (List Char) × Nat × List Char)
  | ':' :: r5 =>
    match r5.span Char.isDigit with
    | ([], _) => none
    | (digits, r6) => some (some digits, digits.length + 1, r6)
  | r4 => some (none, 0, r4)

/-- Matcher for the token regex.  `cs` is the format tail immediately after the
opening `%`.  The regex is deterministic on this grammar (each greedy class is
disjoint from what may follow it), so a direct scan reproduces
`std::regex_search` exactly: a mandatory run of command characters, the
optional subcommand and length groups, then the closing `%`. -/
def matchCommand (cs : List Char) : Option CommandMatch :=
  match cs.span isCommandChar with
  | ([], _) => none
  | (name, r1) =>
    match matchSubcommand r1 with
    | none => none
    | some (sub, subLen, r4) =>
      match matchLength r4 with
      | none => none
      | some (len, lenLen, r6) =>
        match r6 with
        | '%' :: r7 =>
          some ⟨String.mk name, sub, len, r7, name.length + subLen + lenLen + 2⟩
        | _ => none

/-- Resolution chain inside `SubstitutionFormatParser::parse` (lines 132-160):
first the built-in command parsers, then the user-supplied command parsers, and
if none of them returned a provider, the context-independent
`StreamInfoFormatterBase` fallback (which always constructs a provider).  The
built-in registry and the fallback constructor live outside the studied source
and are parameters. -/
def resolveCommand {γ : Type} (builtins commandParsers : List (CommandParser γ))
    (fallback : String → String → Option Nat → Provider γ)
    (command subcommand : String) (maxLength : Option Nat) : Provider γ :=
  match builtins.findSome? (fun cp => cp.parse command subcommand maxLength) with
  | some formatter => formatter
  | none =>
    match commandParsers.findSome? (fun cp => cp.parse command subcommand maxLength) with
    | some formatter => formatter
    | none => fallback command subcommand maxLength

/-- Scan loop of `SubstitutionFormatParser::parse`.  `cs` is the unread tail of
the format, `pos` the current absolute position (for error messages), `acc` the
pending literal (`current_token`).  A non-`%` character extends the literal; a
`%%` pair appends a literal `%`; otherwise the pending literal is flushed as a
`PlainStringFormatterBase`, the token regex must match, the optional LENGTH
capture must pass `parseMaxLength` (the `absl::SimpleAtoi` validation), and
the command is resolved through the chain.  At end of input a non-empty
pending literal is flushed.  The `fuel` argument makes the recursion
structural; every step consumes at least one character, so `fuel = cs.length`
never exhausts. -/
def parseAux {γ : Type} (builtins commandParsers : List (CommandParser γ))
    (fallback : String → String → Option Nat → Provider γ) (format : String) :
    Nat → List Char → Nat → List Char → Except FormatError (List (Provider γ))
  | _, [], _, acc =>
    .ok (if acc.isEmpty then [] else [Provider.plainString (String.mk acc)])
  | 0, _ :: _, _, _ => .error .scanStuck
  | fuel + 1, c :: rest, pos, acc =>
    if c = '%' then
      match rest with
      | '%' :: rest2 =>
        parseAux builtins commandParsers fallback format fuel rest2 (pos + 2) (acc ++ ['%'])
      | _ =>
        let flush : List (Provider γ) :=
          if acc.isEmpty then [] else [Provider.plainString (String.mk acc)]
        match matchCommand rest with
        | none => .error (.noValidCommand format pos)
        | some m =>
          match parseMaxLength m.lengthDigits with
          | .error e => .error e
          | .ok maxLength =>
            let provider := resolveCommand builtins commandParsers fallback
              m.command m.subcommand maxLength
            match parseAux builtins commandParsers fallback format fuel m.rest
                (pos + m.consumed) [] with
            | .ok tail => .ok (flush ++ provider :: tail)
            | .error e => .error e
    else
      parseAux builtins commandParsers fallback format fuel rest (pos + 1) (acc ++ [c])

/-- Embedding of `SubstitutionFormatParser::parse`.  An empty format yields one
`PlainStringFormatterBase` holding the empty literal (the
`!current_token.empty() || format.empty()` flush). -/
def SubstitutionFormatParser.parse {γ : Type}
    (builtins commandParsers : List (CommandParser γ))
    (fallback : String → String → Option Nat → Provider γ)
    (format : String) : Except FormatError (List (Provider γ)) :=
  if format.isEmpty then .ok [Provider.plainString ""]
  else parseAux builtins commandParsers fallback format format.data.length format.data 0 []

/-- Default placeholder for a provider that yields no value,
`DefaultUnspecifiedValueStringView`. -/
def DefaultUnspecifiedValueStringView : String := "-"

/-- Flat composite formatter `CommonFormatterBaseImpl`: the configured
empty-value string and the compiled provider sequence. -/
structure CommonFormatterBaseImpl (γ : Type) where
  empty_value_string : String
  providers : List (Provider γ)

/-- Constructor of `CommonFormatterBaseImpl`: the empty-value string is the
empty string when `omit_empty_values` is set and `"-"` otherwise, and the
providers come from `SubstitutionFormatParser::parse` (which may throw). -/
def CommonFormatterBaseImpl.mk' {γ : Type}
    (builtins : List (CommandParser γ))
    (fallback : String → String → Option Nat → Provider γ)
    (format : String) (omit_empty_values : Bool)
    (command_parsers : List (CommandParser γ)) :
    Except FormatError (CommonFormatterBaseImpl γ) :=
  match SubstitutionFormatParser.parse builtins command_parsers fallback format with
  | .error e => .error e
  | .ok providers =>
    .ok ⟨if omit_empty_values then "" else DefaultUnspecifiedValueStringView, providers⟩

/-- Flat evaluation `CommonFormatterBaseImpl::formatWithContext`: for each
provider in order append its text, or the empty-value string when it yields
none. -/
def CommonFormatterBaseImpl.formatWithContext {γ : Type}
    (f : CommonFormatterBaseImpl γ) (ctx : γ) : String :=
  f.providers.foldl
    (fun log_line provider =>
      log_line ++ ((provider.formatWithContext ctx).getD f.empty_value_string)) ""

/-- Specification-side rendering of a format string (claim/spec wording): keep
literal characters, turn each `%%` escape into a single `%`, and replace every
command token (recognised by the same grammar) by the placeholder; fail where
the scan fails.  Defined independently of providers and resolvers so that
theorems relate it to compile-then-evaluate. -/
def renderAux (placeholder : String) : Nat → List Char → Option String
  | _, [] => some ""
  | 0, _ :: _ => none
  | fuel + 1, c :: rest =>
    if c = '%' then
      match rest with
      | '%' :: rest2 => (renderAux placeholder fuel rest2).map (fun s => "%" ++ s)
      | _ =>
        match matchCommand rest with
        | none => none
        | some m => (renderAux placeholder fuel m.rest).map (fun s => placeholder ++ s)
    else
      (renderAux placeholder fuel rest).map (fun s => String.singleton c ++ s)

/-- Top-level specification-side rendering of a whole format string. -/
def renderWithPlaceholder (placeholder : String) (format : String) : Option String :=
  renderAux placeholder format.data.length format.data

/-- Specification-side scan (claim wording for the error behaviour): walk the
format exactly like the scanner, skipping literals, `%%` escapes and matched
command tokens, and return the position of the first unescaped `%` at which no
prefix matches the command grammar (none when the whole format scans). -/
def specScanErrorAux : Nat → List Char → Nat → Option Nat
  | _, [], _ => none
  | 0, _ :: _, _ => none
  | fuel + 1, c :: rest, pos =>
    if c = '%' then
      match rest with
      | '%' :: rest2 => specScanErrorAux fuel rest2 (pos + 2)
      | _ =>
        match matchCommand rest with
        | none => some pos
        | some m => specScanErrorAux fuel m.rest (pos + m.consumed)
    else specScanErrorAux fuel rest (pos + 1)

/-- Position of the first failing `%` of a format string, per the claim's
reading of the grammar; none when the format is well-formed. -/
def specScanError (format : String) : Option Nat :=
  specScanErrorAux format.data.length format.data 0

/-- Structured template document (`ProtobufWkt::Struct` / `ProtobufWkt::Value`
as consumed by `FormatBuilder`): the kind cases of a protobuf value.  Struct
fields are given as an association list in some iteration order of the protobuf
map. -/
inductive TemplateValue where
  | nullV : TemplateValue
  | boolV (b : Bool) : TemplateValue
  | numberV (n : Int) : TemplateValue
  | stringV (s : String) : TemplateValue
  | structV (fields : List (String × TemplateValue)) : TemplateValue
  | listV (elems : List TemplateValue) : TemplateValue

/-- Compiled structured plan (`StructFormatValue`): a flat provider list at a
scalar leaf, a `StructFormatMap` (a `std::map`, kept as a key-sorted
association list) or a `StructFormatList`. -/
inductive StructFormatValue (γ : Type) where
  | providers (ps : List (Provider γ)) : StructFormatValue γ
  | map (m : List (String × StructFormatValue γ)) : StructFormatValue γ
  | list (l : List (StructFormatValue γ)) : StructFormatValue γ

/-- Lexicographic comparison of character lists (the order of
`std::less<std::string>`; code-point order and UTF-8 byte order agree). -/
def charsLt : List Char → List Char → Bool
  | [], [] => false
  | [], _ :: _ => true
  | _ :: _, [] => false
  | c :: cs, d :: ds => if c < d then true else if d < c then false else charsLt cs ds

/-- Lexicographic `String` comparison, `std::less<std::string>`. -/
def strLt (a b : String) : Bool := charsLt a.data b.data

/-- Insertion into the embedded `std::map` (`StructFormatMap::emplace`): keep
the association list sorted by key (`std::less<std::string>`) and do not
overwrite an existing key. -/
def mapEmplace {α : Type} (k : String) (v : α) :
    List (String × α) → List (String × α)
  | [] => [(k, v)]
  | (k', v') :: rest =>
    if strLt k k' then (k, v) :: (k', v') :: rest
    else if strLt k' k then (k', v') :: mapEmplace k v rest
    else (k', v') :: rest

mutual

/-- Recursive compilation of one template value by
`StructFormatterBase::FormatBuilder` (`toFormatStringValue` /
`toFormatNumberValue` / `toFormatMapValue` / `toFormatListValue`): a string
leaf compiles through `SubstitutionFormatParser::parse`, a number leaf becomes
a single `PlainNumberFormatter`, maps and lists recurse, and any other kind
throws. -/
def toFormatValue {γ : Type} (builtins commands : List (CommandParser γ))
    (fallback : String → String → Option Nat → Provider γ) :
    TemplateValue → Except FormatError (StructFormatValue γ)
  | .stringV s =>
    match SubstitutionFormatParser.parse builtins commands fallback s with
    | .error e => .error e
    | .ok ps => .ok (.providers ps)
  | .numberV n => .ok (.providers [Provider.plainNumber n])
  | .structV fields =>
    match toFormatMapValue builtins commands fallback [] fields with
    | .error e => .error e
    | .ok m => .ok (.map m)
  | .listV elems =>
    match toFormatListValue builtins commands fallback elems with
    | .error e => .error e
    | .ok l => .ok (.list l)
  | .nullV => .error .unsupportedValueKind
  | .boolV _ => .error .unsupportedValueKind

/-- Compilation of a struct's fields (`FormatBuilder::toFormatMapValue`): each
field is compiled in iteration order and emplaced into the `std::map`
accumulator. -/
def toFormatMapValue {γ : Type} (builtins commands : List (CommandParser γ))
    (fallback : String → String → Option Nat → Provider γ)
    (acc : List (String × StructFormatValue γ)) :
    List (String × TemplateValue) →
    Except FormatError (List (String × StructFormatValue γ))
  | [] => .ok acc
  | (k, v) :: rest =>
    match toFormatValue builtins commands fallback v with
    | .error e => .error e
    | .ok cv => toFormatMapValue builtins commands fallback (mapEmplace k cv acc) rest

/-- Compilation of a list value (`FormatBuilder::toFormatListValue`),
preserving element order. -/
def toFormatListValue {γ : Type} (builtins commands : List (CommandParser γ))
    (fallback : String → String → Option Nat → Provider γ) :
    List TemplateValue → Except FormatError (List (StructFormatValue γ))
  | [] => .ok []
  | v :: rest =>
    match toFormatValue builtins commands fallback v with
    | .error e => .error e
    | .ok cv =>
      match toFormatListValue builtins commands fallback rest with
      | .error e => .error e
      | .ok crest => .ok (cv :: crest)

end

/-- Structured formatter `StructFormatterBase`: the two policy flags, the
empty-value string they determine, and the compiled root map. -/
structure StructFormatterBase (γ : Type) where
  omit_empty_values : Bool
  preserve_types : Bool
  empty_value : String
  struct_output_format : List (String × StructFormatValue γ)

/-- Constructor of `StructFormatterBase`: `empty_value_` is the empty string
when `omit_empty_values` is set and `"-"` otherwise; the root template map is
compiled by the `FormatBuilder`. -/
def StructFormatterBase.mk' {γ : Type} (builtins commands : List (CommandParser γ))
    (fallback : String → String → Option Nat → Provider γ)
    (format_mapping : List (String × TemplateValue))
    (preserve_types omit_empty_values : Bool) :
    Except FormatError (StructFormatterBase γ) :=
  match toFormatMapValue builtins commands fallback [] format_mapping with
  | .error e => .error e
  | .ok root =>
    .ok ⟨omit_empty_values, preserve_types,
      if omit_empty_values then "" else DefaultUnspecifiedValueStringView, root⟩

/-- Modelled from the spec: `ValueUtil::optionalStringValue` (declared outside
the studied source) wraps a present string as a string value and an absent one
as the null marker. -/
def optionalStringValue : Option String → Value
  | some s => .str s
  | none => .null

/-- Scalar-leaf evaluation `StructFormatterBase::providersCallback`: with
exactly one provider, the typed value when `preserve_types_`, else the
null-or-string of `optionalStringValue` when `omit_empty_values_`, else the
text with the empty value substituted; with any other number of providers, the
concatenated text with the empty value substituted per provider. -/
def providersCallback {γ : Type} (f : StructFormatterBase γ)
    (providers : List (Provider γ)) (ctx : γ) : Value :=
  match providers with
  | [provider] =>
    if f.preserve_types then provider.formatValueWithContext ctx
    else if f.omit_empty_values then
      optionalStringValue (provider.formatWithContext ctx)
    else .str ((provider.formatWithContext ctx).getD f.empty_value)
  | _ =>
    .str (providers.foldl
      (fun str provider => str ++ ((provider.formatWithContext ctx).getD f.empty_value)) "")

mutual

/-- Evaluation of one compiled node (the visitor of
`StructFormatterBase::formatWithContext`): providers go to
`providersCallback`; a map node evaluates its fields and collapses to the null
marker when `omit_empty_values_` is set and no field survived
(`structFormatMapCallback`); a list node is always a list value
(`structFormatListCallback`). -/
def evalStructValue {γ : Type} (f : StructFormatterBase γ) (ctx : γ) :
    StructFormatValue γ → Value
  | .providers ps => providersCallback f ps ctx
  | .map m =>
    let fields := structFormatMapFields f ctx m
    if f.omit_empty_values && fields.isEmpty then Value.null else Value.struct fields
  | .list l => Value.list (structFormatListElems f ctx l)

/-- Field loop of `StructFormatterBase::structFormatMapCallback`: evaluate each
field in the (key-sorted) map order, dropping a field whose value is the null
marker when `omit_empty_values_` is set. -/
def structFormatMapFields {γ : Type} (f : StructFormatterBase γ) (ctx : γ) :
    List (String × StructFormatValue γ) → List (String × Value)
  | [] => []
  | (k, v) :: rest =>
    let value := evalStructValue f ctx v
    if f.omit_empty_values && value.isNull then structFormatMapFields f ctx rest
    else (k, value) :: structFormatMapFields f ctx rest

/-- Element loop of `StructFormatterBase::structFormatListCallback`: evaluate
each element in order, dropping a null-marker element when
`omit_empty_values_` is set. -/
def structFormatListElems {γ : Type} (f : StructFormatterBase γ) (ctx : γ) :
    List (StructFormatValue γ) → List Value
  | [] => []
  | v :: rest =>
    let value := evalStructValue f ctx v
    if f.omit_empty_values && value.isNull then structFormatListElems f ctx rest
    else value :: structFormatListElems f ctx rest

end

/-- Whole-map evaluation `StructFormatterBase::structFormatMapCallback`
(field loop plus the empty-map collapse). -/
def structFormatMapCallback {γ : Type} (f : StructFormatterBase γ) (ctx : γ)
    (m : List (String × StructFormatValue γ)) : Value :=
  let fields := structFormatMapFields f ctx m
  if f.omit_empty_values && fields.isEmpty then Value.null else Value.struct fields

/-- Top-level structured evaluation `StructFormatterBase::formatWithContext`:
evaluate the root map and take `struct_value()` of the result (the default
empty struct when the root collapsed to the null marker). -/
def StructFormatterBase.formatWithContext {γ : Type} (f : StructFormatterBase γ)
    (ctx : γ) : List (String × Value) :=
  (structFormatMapCallback f ctx f.struct_output_format).structValue

/-- Sorted insertion of a key into a key list (helper for the lexicographic
sort of the serializer model). -/
def sortedInsert (s : String) : List String → List String
  | [] => [s]
  | t :: rest => if strLt s t then s :: t :: rest else t :: sortedInsert s rest

/-- Insertion sort of a key list by the lexicographic order. -/
def insertionSortStr : List String → List String
  | [] => []
  | s :: rest => sortedInsert s (insertionSortStr rest)

/-- Modelled from the spec: the JSON serializer of
`CommonJsonFormatterBaseImpl::formatWithContext` (the
`Json::Factory`/`MessageUtil` collaborators live outside the studied source)
emits the top-level object keys sorted when `sort_properties_` is set, and in
the evaluated struct's stored order otherwise. -/
def serializedKeyOrder (sort_properties : Bool) (fields : List (String × Value)) :
    List String :=
  if sort_properties then insertionSortStr (fields.map Prod.fst)
  else fields.map Prod.fst

/-- Provider over the trivial context that yields no text value, standing in
for a command whose data is absent on the event. -/
def noneProvider : Provider Unit := .command ⟨fun _ => none, fun _ => .null⟩

/-- Fallback constructor (the `StreamInfoFormatterBase` parameter) whose
providers always yield no value on the trivial context. -/
def noneFallback : String → String → Option Nat → Provider Unit :=
  fun _ _ _ => noneProvider

/-- Top-level object keys of a structured-formatter construction over the
trivial context, with the serializer's sort option: the empty list when
construction failed. -/
def structKeysOfResult (sort_properties : Bool)
    (r : Except FormatError (StructFormatterBase Unit)) : List String :=
  match r with
  | .ok f => serializedKeyOrder sort_properties (f.formatWithContext ())
  | .error _ => []

lemma strmk_append (a b : List Char) :
    String.mk (a ++ b) = String.mk a ++ String.mk b := rfl

lemma join_cons (s : String) (l : List String) :
    String.join (s :: l) = s ++ String.join l := by
  cases s
  simp only [String.join_eq, List.map_cons, List.flatten_cons]
  rfl

lemma join_append (a b : List String) :
    String.join (a ++ b) = String.join a ++ String.join b := by
  induction a with
  | nil => simp [String.join, String.empty_append]
  | cons s rest ih =>
    simp only [List.cons_append, join_cons, ih, String.append_assoc]

lemma foldl_append_eq_join {α : Type} (g : α → String) :
    ∀ (l : List α) (s : String),
      l.foldl (fun acc x => acc ++ g x) s = s ++ String.join (l.map g)
  | [], s => by simp [String.join, String.append_empty]
  | x :: rest, s => by
    simp only [List.foldl_cons, List.map_cons, join_cons,
      foldl_append_eq_join g rest (s ++ g x), String.append_assoc]

lemma matchSubcommand_rest_le {r1 : List Char} {s : String} {n : Nat}
    {r4 : List Char} (h : matchSubcommand r1 = some (s, n, r4)) :
    r4.length ≤ r1.length := by
  unfold matchSubcommand at h
  split at h
  next r2 =>
    split at h
    next sub r4' heq =>
      have h1 := Option.some.inj h
      have hr4 : r4 = r4' := (congrArg (fun p => p.2.2) h1).symm
      subst hr4
      rw [List.span_eq_take_drop] at heq
      have h2 := congrArg Prod.snd heq
      simp only at h2
      have h3 := (List.dropWhile_sublist (l := r2) (fun c => decide (c ≠ ')'))).length_le
      rw [h2] at h3
      simp only [List.length_cons] at h3 ⊢
      omega
    next => exact absurd h (by simp)
  next =>
    have hr4 : r4 = r1 := (congrArg (fun p => p.2.2) (Option.some.inj h)).symm
    subst hr4
    exact le_refl _

lemma matchLength_rest_le {r4 : List Char} {len : Option (List Char)} {n : Nat}
    {r6 : List Char} (h : matchLength r4 = some (len, n, r6)) :
    r6.length ≤ r4.length := by
  unfold matchLength at h
  split at h
  next r5 =>
    split at h
    next => exact absurd h (by simp)
    next digits r6x hne heq =>
      have h1 := Option.some.inj h
      have hr6 : r6 = r6x := (congrArg (fun p => p.2.2) h1).symm
      subst hr6
      rw [List.span_eq_take_drop] at heq
      have h2 := congrArg Prod.snd heq
      simp only at h2
      have h3 := (List.dropWhile_sublist (l := r5) Char.isDigit).length_le
      rw [h2] at h3
      simp only [List.length_cons]
      omega
  next =>
    have hr6 : r6 = r4 := (congrArg (fun p => p.2.2) (Option.some.inj h)).symm
    subst hr6
    exact le_refl _

lemma matchCommand_rest_le {cs : List Char} {m : CommandMatch}
    (h : matchCommand cs = some m) : m.rest.length ≤ cs.length := by
  unfold matchCommand at h
  split at h
  next => exact absurd h (by simp)
  next name r1 hne heq =>
    split at h
    next => exact absurd h (by simp)
    next sub subLen r4 hsub =>
      split at h
      next => exact absurd h (by simp)
      next len lenLen r6 hlen =>
        split at h
        next r7 =>
          have hrest : m.rest = r7 := by
            have h1 := Option.some.inj h
            exact (congrArg CommandMatch.rest h1).symm
          rw [List.span_eq_take_drop] at heq
          have h2 := congrArg Prod.snd heq
          simp only at h2
          have h3 := (List.dropWhile_sublist (l := cs) isCommandChar).length_le
          rw [h2] at h3
          have h4 := matchSubcommand_rest_le hsub
          have h5 := matchLength_rest_le hlen
          rw [hrest]
          simp only [List.length_cons] at h5
          omega
        next => exact absurd h (by simp)

lemma cons_append_ne_nil {α : Type} (l1 : List α) (a : α) (l2 : List α) :
    l1 ++ a :: l2 ≠ [] := by
  cases l1 <;> simp

lemma parseAux_ok_ne_nil {γ : Type} {bl us : List (CommandParser γ)}
    {fb : String → String → Option Nat → Provider γ} {fmt : String} :
    ∀ fuel cs pos acc (ps : List (Provider γ)), (acc ≠ [] ∨ cs ≠ []) →
      parseAux bl us fb fmt fuel cs pos acc = .ok ps → ps ≠ [] := by
  intro fuel
  induction fuel with
  | zero =>
    intro cs pos acc ps hne h
    match cs with
    | [] =>
      have hacc : acc ≠ [] := by
        rcases hne with h1 | h1
        · exact h1
        · exact absurd rfl h1
      simp only [parseAux] at h
      rw [if_neg (by simpa using hacc)] at h
      cases h
      simp
    | c :: rest =>
      simp only [parseAux] at h
      exact absurd h (by simp)
  | succ fuel ih =>
    intro cs pos acc ps hne h
    match cs with
    | [] =>
      have hacc : acc ≠ [] := by
        rcases hne with h1 | h1
        · exact h1
        · exact absurd rfl h1
      simp only [parseAux] at h
      rw [if_neg (by simpa using hacc)] at h
      cases h
      simp
    | c :: rest =>
      simp only [parseAux] at h
      split at h
      · -- c = '%'
        split at h
        next rest2 =>
          exact ih rest2 _ _ ps (Or.inl (by simp)) h
        next =>
          split at h
          next => exact absurd h (by simp)
          next m =>
            split at h
            next => exact absurd h (by simp)
            next =>
              split at h
              next tail htail =>
                cases h
                exact cons_append_ne_nil _ _ _
              next => exact absurd h (by simp)
      · -- literal
        exact ih rest _ _ ps (Or.inl (by simp)) h

lemma parseAux_no_percent {γ : Type} {bl us : List (CommandParser γ)}
    {fb : String → String → Option Nat → Provider γ} {fmt : String} :
    ∀ fuel cs pos acc, cs.length ≤ fuel → (∀ c ∈ cs, c ≠ '%') →
      parseAux bl us fb fmt fuel cs pos acc =
        .ok (if (acc ++ cs).isEmpty then []
             else [Provider.plainString (String.mk (acc ++ cs))]) := by
  intro fuel
  induction fuel with
  | zero =>
    intro cs pos acc hlen hall
    match cs with
    | [] => simp [parseAux]
    | c :: rest => simp at hlen
  | succ fuel ih =>
    intro cs pos acc hlen hall
    match cs with
    | [] => simp [parseAux]
    | c :: rest =>
      have hc : c ≠ '%' := hall c (by simp)
      simp only [parseAux, if_neg hc]
      rw [ih rest (pos + 1) (acc ++ [c]) (by simpa using Nat.le_of_succ_le_succ (by simpa using hlen))
        (fun x hx => hall x (by simp [hx]))]
      simp [List.append_assoc]

lemma parseAux_escape {γ : Type} {bl us : List (CommandParser γ)}
    {fb : String → String → Option Nat → Provider γ} {fmt : String} :
    ∀ pre fuel pos acc post, (∀ c ∈ pre, c ≠ '%') → (∀ c ∈ post, c ≠ '%') →
      pre.length + 2 + post.length ≤ fuel →
      parseAux bl us fb fmt fuel (pre ++ '%' :: '%' :: post) pos acc =
        .ok [Provider.plainString (String.mk (acc ++ pre ++ '%' :: post))] := by
  intro pre
  induction pre with
  | nil =>
    intro fuel pos acc post hpre hpost hlen
    match fuel with
    | 0 => simp at hlen
    | fuel + 1 =>
      simp only [List.nil_append, parseAux, if_pos rfl]
      rw [parseAux_no_percent fuel post (pos + 2) (acc ++ ['%'])
        (by simp at hlen; omega) hpost]
      have hne : ((acc ++ ['%']) ++ post).isEmpty = false := by
        simp [List.isEmpty_iff]
      rw [hne]
      simp [List.append_assoc]
  | cons p pre ih =>
    intro fuel pos acc post hpre hpost hlen
    match fuel with
    | 0 => simp at hlen
    | fuel + 1 =>
      have hp : p ≠ '%' := hpre p (by simp)
      simp only [List.cons_append, parseAux, if_neg hp]
      simp only [List.append_eq]
      rw [ih fuel (pos + 1) (acc ++ [p]) post
        (fun x hx => hpre x (by simp [hx])) hpost (by simp at hlen ⊢; omega)]
      simp [List.append_assoc]

lemma renderAux_nil (e : String) (fuel : Nat) : renderAux e fuel [] = some "" := by
  cases fuel <;> rfl

lemma renderAux_literal (e : String) (fuel : Nat) (c : Char) (rest : List Char)
    (hc : c ≠ '%') :
    renderAux e (fuel + 1) (c :: rest) =
      (renderAux e fuel rest).map (fun s => String.singleton c ++ s) := by
  simp only [renderAux, if_neg hc]

lemma renderAux_command (e : String) (fuel : Nat) (rest : List Char)
    (hnp : ∀ rest2, rest ≠ '%' :: rest2) :
    renderAux e (fuel + 1) ('%' :: rest) =
      (match matchCommand rest with
       | none => none
       | some m => (renderAux e fuel m.rest).map (fun s => e ++ s)) := by
  show (match rest with
        | '%' :: rest2 => (renderAux e fuel rest2).map (fun s => "%" ++ s)
        | _ =>
          match matchCommand rest with
          | none => none
          | some m => (renderAux e fuel m.rest).map (fun s => e ++ s)) =
      (match matchCommand rest with
       | none => none
       | some m => (renderAux e fuel m.rest).map (fun s => e ++ s))
  split
  next rest2 => exact absurd rfl (hnp rest2)
  next => rfl

lemma strmk_nil_append (r : String) : String.mk [] ++ r = r := by
  cases r; rfl

lemma join_map_flush {γ : Type} (ctx : γ) (e : String) (acc : List Char) :
    String.join ((if acc.isEmpty then ([] : List (Provider γ))
        else [Provider.plainString (String.mk acc)]).map
      (fun p => (p.formatWithContext ctx).getD e)) = String.mk acc := by
  split
  next hae =>
    have : acc = [] := by simpa using hae
    subst this
    rfl
  next =>
    simp only [List.map_cons, List.map_nil, Provider.formatWithContext,
      Option.getD_some, join_cons]
    simp [String.join, String.append_empty]

lemma parseAux_render {γ : Type} {bl us : List (CommandParser γ)}
    {fb : String → String → Option Nat → Provider γ} {fmt : String}
    (ctx : γ) (e : String)
    (hnone : ∀ cmd sub len,
      (resolveCommand bl us fb cmd sub len).formatWithContext ctx = none) :
    ∀ fuel cs pos acc (ps : List (Provider γ)), cs.length ≤ fuel →
      parseAux bl us fb fmt fuel cs pos acc = .ok ps →
      ∃ r, renderAux e fuel cs = some r ∧
        String.join (ps.map (fun p => (p.formatWithContext ctx).getD e)) =
          String.mk acc ++ r := by
  intro fuel
  induction fuel with
  | zero =>
    intro cs pos acc ps hlen h
    match cs with
    | [] =>
      refine ⟨"", renderAux_nil e 0, ?_⟩
      simp only [parseAux] at h
      cases h
      rw [join_map_flush, String.append_empty]
    | c :: rest => simp at hlen
  | succ fuel ih =>
    intro cs pos acc ps hlen h
    match cs with
    | [] =>
      refine ⟨"", renderAux_nil e _, ?_⟩
      simp only [parseAux] at h
      cases h
      rw [join_map_flush, String.append_empty]
    | c :: rest =>
      have hlen' : rest.length ≤ fuel := by simpa using hlen
      simp only [parseAux] at h
      split at h
      next hc =>
        subst hc
        split at h
        next rest2 =>
          obtain ⟨r, hr, hj⟩ := ih rest2 (pos + 2) (acc ++ ['%']) ps
            (by simp at hlen'; omega) h
          refine ⟨"%" ++ r, ?_, ?_⟩
          · show (renderAux e fuel rest2).map (fun s => "%" ++ s) = some ("%" ++ r)
            rw [hr]; rfl
          · rw [hj, strmk_append, String.append_assoc]
        next r6 hnp =>
          have hnp2 : ∀ rest2, rest ≠ '%' :: rest2 := fun rest2 hre => hnp rest2 hre
          split at h
          next => exact absurd h (by simp)
          next m hm =>
            split at h
            next => exact absurd h (by simp)
            next maxLength hml =>
              split at h
              next tail htail =>
                cases h
                obtain ⟨r, hr, hj⟩ := ih m.rest (pos + m.consumed) [] tail
                  (le_trans (matchCommand_rest_le hm) hlen') htail
                refine ⟨e ++ r, ?_, ?_⟩
                · rw [renderAux_command e fuel rest hnp2, hm]
                  show (renderAux e fuel m.rest).map (fun s => e ++ s) = some (e ++ r)
                  rw [hr]; rfl
                · rw [List.map_append, join_append, join_map_flush, List.map_cons,
                    join_cons, hnone m.command m.subcommand maxLength]
                  rw [hj, strmk_nil_append]
                  rfl
              next => exact absurd h (by simp)
      next hc =>
        obtain ⟨r, hr, hj⟩ := ih rest (pos + 1) (acc ++ [c]) ps hlen' h
        refine ⟨String.singleton c ++ r, ?_, ?_⟩
        · rw [renderAux_literal e fuel c rest hc, hr]; rfl
        · rw [hj, strmk_append, String.append_assoc]
          rfl

lemma specScanAux_command (fuel : Nat) (rest : List Char) (pos : Nat)
    (hnp : ∀ rest2, rest ≠ '%' :: rest2) :
    specScanErrorAux (fuel + 1) ('%' :: rest) pos =
      (match matchCommand rest with
       | none => some pos
       | some m => specScanErrorAux fuel m.rest (pos + m.consumed)) := by
  show (match rest with
        | '%' :: rest2 => specScanErrorAux fuel rest2 (pos + 2)
        | _ =>
          match matchCommand rest with
          | none => some pos
          | some m => specScanErrorAux fuel m.rest (pos + m.consumed)) =
      (match matchCommand rest with
       | none => some pos
       | some m => specScanErrorAux fuel m.rest (pos + m.consumed))
  split
  next rest2 => exact absurd rfl (hnp rest2)
  next => rfl

lemma parseAux_command_eq {γ : Type} (bl us : List (CommandParser γ))
    (fb : String → String → Option Nat → Provider γ) (fmt : String)
    (fuel : Nat) (rest : List Char) (pos : Nat) (acc : List Char)
    (hnp : ∀ rest2, rest ≠ '%' :: rest2) :
    parseAux bl us fb fmt (fuel + 1) ('%' :: rest) pos acc =
      (match matchCommand rest with
       | none => .error (.noValidCommand fmt pos)
       | some m =>
         match parseMaxLength m.lengthDigits with
         | .error e => .error e
         | .ok maxLength =>
           match parseAux bl us fb fmt fuel m.rest (pos + m.consumed) [] with
           | .ok tail =>
             .ok ((if acc.isEmpty then []
                   else [Provider.plainString (String.mk acc)]) ++
               resolveCommand bl us fb m.command m.subcommand maxLength :: tail)
           | .error e => .error e) := by
  show (match rest with
        | '%' :: rest2 => parseAux bl us fb fmt fuel rest2 (pos + 2) (acc ++ ['%'])
        | _ =>
          match matchCommand rest with
          | none => .error (.noValidCommand fmt pos)
          | some m =>
            match parseMaxLength m.lengthDigits with
            | .error e => .error e
            | .ok maxLength =>
              match parseAux bl us fb fmt fuel m.rest (pos + m.consumed) [] with
              | .ok tail =>
                .ok ((if acc.isEmpty then []
                      else [Provider.plainString (String.mk acc)]) ++
                  resolveCommand bl us fb m.command m.subcommand maxLength :: tail)
              | .error e => .error e) =
      (match matchCommand rest with
       | none => .error (.noValidCommand fmt pos)
       | some m =>
         match parseMaxLength m.lengthDigits with
         | .error e => .error e
         | .ok maxLength =>
           match parseAux bl us fb fmt fuel m.rest (pos + m.consumed) [] with
           | .ok tail =>
             .ok ((if acc.isEmpty then []
                   else [Provider.plainString (String.mk acc)]) ++
               resolveCommand bl us fb m.command m.subcommand maxLength :: tail)
           | .error e => .error e)
  split
  next rest2 => exact absurd rfl (hnp rest2)
  next => rfl

lemma parseMaxLength_error {ld : Option (List Char)} {e : FormatError}
    (h : parseMaxLength ld = .error e) :
    ∃ digits, ld = some digits ∧ e = .lengthNotInteger (String.mk digits) ∧
      sizeTCount ≤ digitsToNat digits := by
  match ld with
  | none => simp [parseMaxLength] at h
  | some digits =>
    simp only [parseMaxLength] at h
    split at h
    next => exact absurd h (by simp)
    next hge =>
      exact ⟨digits, rfl, (Except.error.inj h).symm, Nat.le_of_not_lt hge⟩

lemma parseAux_specScan {γ : Type} {bl us : List (CommandParser γ)}
    {fb : String → String → Option Nat → Provider γ} {fmt : String} :
    ∀ fuel cs pos acc, cs.length ≤ fuel →
      ((∀ e : FormatError, parseAux bl us fb fmt fuel cs pos acc = .error e →
         (∃ P, e = .noValidCommand fmt P ∧ specScanErrorAux fuel cs pos = some P) ∨
         (∃ digits, e = .lengthNotInteger (String.mk digits) ∧
           sizeTCount ≤ digitsToNat digits)) ∧
       (∀ P, specScanErrorAux fuel cs pos = some P →
         parseAux bl us fb fmt fuel cs pos acc =
           .error (.noValidCommand fmt P) ∨
         ∃ s, parseAux bl us fb fmt fuel cs pos acc =
           .error (.lengthNotInteger s))) := by
  intro fuel
  induction fuel with
  | zero =>
    intro cs pos acc hlen
    match cs with
    | [] =>
      exact ⟨fun e h => absurd h (by simp [parseAux]),
        fun P h => absurd h (by simp [specScanErrorAux])⟩
    | c :: rest => simp at hlen
  | succ fuel ih =>
    intro cs pos acc hlen
    match cs with
    | [] =>
      exact ⟨fun e h => absurd h (by simp [parseAux]),
        fun P h => absurd h (by simp [specScanErrorAux])⟩
    | c :: rest =>
      have hlen' : rest.length ≤ fuel := by simpa using hlen
      by_cases hc : c = '%'
      · subst hc
        rcases rest with _ | ⟨c2, rest2⟩
        · -- lone '%' at end of input
          constructor
          · intro e h
            have h0 : parseAux bl us fb fmt (fuel + 1) ['%'] pos acc =
                .error (.noValidCommand fmt pos) := rfl
            rw [h0] at h
            exact Or.inl ⟨pos, (Except.error.inj h).symm, rfl⟩
          · intro P h
            have h0 : specScanErrorAux (fuel + 1) ['%'] pos = some pos := rfl
            rw [h0] at h
            rw [← Option.some.inj h]
            exact Or.inl rfl
        · by_cases hc2 : c2 = '%'
          · subst hc2
            have hstep1 : parseAux bl us fb fmt (fuel + 1) ('%' :: '%' :: rest2) pos acc =
                parseAux bl us fb fmt fuel rest2 (pos + 2) (acc ++ ['%']) := rfl
            have hstep2 : specScanErrorAux (fuel + 1) ('%' :: '%' :: rest2) pos =
                specScanErrorAux fuel rest2 (pos + 2) := rfl
            rw [hstep1, hstep2]
            exact ih rest2 (pos + 2) (acc ++ ['%']) (by simp at hlen'; omega)
          · have hnp : ∀ r2, c2 :: rest2 ≠ '%' :: r2 := by
              intro r2 hq
              exact hc2 (List.cons.inj hq).1
            rw [parseAux_command_eq bl us fb fmt fuel (c2 :: rest2) pos acc hnp,
              specScanAux_command fuel (c2 :: rest2) pos hnp]
            rcases hmc : matchCommand (c2 :: rest2) with _ | m
            · simp only [hmc]
              exact ⟨fun e h => Or.inl ⟨pos, (Except.error.inj h).symm, rfl⟩,
                fun P h => Or.inl (by rw [← Option.some.inj h])⟩
            · have hmle : m.rest.length ≤ fuel :=
                le_trans (matchCommand_rest_le hmc) hlen'
              have h12 := ih m.rest (pos + m.consumed) [] hmle
              simp only [hmc]
              rcases hml : parseMaxLength m.lengthDigits with e1 | maxLength
              · -- SimpleAtoi failure on an over-size_t LENGTH
                obtain ⟨digits, hld, he1, hge⟩ := parseMaxLength_error hml
                simp only [hml]
                refine ⟨fun e h => ?_, fun P h => ?_⟩
                · have he : e1 = e := Except.error.inj h
                  exact Or.inr ⟨digits, by rw [← he, he1], hge⟩
                · exact Or.inr ⟨String.mk digits, by rw [he1]⟩
              · simp only [hml]
                rcases htail : parseAux bl us fb fmt fuel m.rest (pos + m.consumed) []
                  with e0 | tail
                · simp only [htail]
                  refine ⟨fun e h => ?_, fun P h => ?_⟩
                  · have he : e0 = e := Except.error.inj h
                    subst he
                    exact h12.1 e0 htail
                  · rcases h12.2 P h with h2 | ⟨s, h2⟩
                    · rw [htail] at h2
                      exact Or.inl (by rw [Except.error.inj h2])
                    · rw [htail] at h2
                      exact Or.inr ⟨s, by rw [Except.error.inj h2]⟩
                · simp only [htail]
                  refine ⟨fun e h => absurd h (by simp), fun P h => ?_⟩
                  rcases h12.2 P h with h2 | ⟨s, h2⟩
                  · rw [htail] at h2
                    exact absurd h2 (by simp)
                  · rw [htail] at h2
                    exact absurd h2 (by simp)
      · have hstep1 : parseAux bl us fb fmt (fuel + 1) (c :: rest) pos acc =
            parseAux bl us fb fmt fuel rest (pos + 1) (acc ++ [c]) := by
          show (if c = '%' then _ else parseAux bl us fb fmt fuel rest (pos + 1) (acc ++ [c])) = _
          rw [if_neg hc]
        have hstep2 : specScanErrorAux (fuel + 1) (c :: rest) pos =
            specScanErrorAux fuel rest (pos + 1) := by
          show (if c = '%' then _ else specScanErrorAux fuel rest (pos + 1)) = _
          rw [if_neg hc]
        rw [hstep1, hstep2]
        exact ih rest (pos + 1) (acc ++ [c]) hlen'

lemma providersCallback_multi {γ : Type} (f : StructFormatterBase γ) (ctx : γ)
    (p q : Provider γ) (ps : List (Provider γ)) :
    providersCallback f (p :: q :: ps) ctx =
      .str (String.join ((p :: q :: ps).map
        (fun pr => (pr.formatWithContext ctx).getD f.empty_value))) := by
  show Value.str ((p :: q :: ps).foldl
      (fun str provider =>
        str ++ ((provider.formatWithContext ctx).getD f.empty_value)) "") = _
  rw [foldl_append_eq_join]
  rw [String.empty_append]

lemma providersCallback_single_preserve {γ : Type} (f : StructFormatterBase γ)
    (ctx : γ) (p : Provider γ) (hp : f.preserve_types = true) :
    providersCallback f [p] ctx = p.formatValueWithContext ctx := by
  simp [providersCallback, hp]

lemma structFormatMapFields_eq_filter {γ : Type} (f : StructFormatterBase γ)
    (ctx : γ) : ∀ m, structFormatMapFields f ctx m =
      (m.map (fun kv => (kv.1, evalStructValue f ctx kv.2))).filter
        (fun kv => !(f.omit_empty_values && kv.2.isNull)) := by
  intro m
  induction m with
  | nil => rfl
  | cons kv rest ih =>
    rcases kv with ⟨k, v⟩
    simp only [structFormatMapFields, List.map_cons, List.filter_cons]
    by_cases hb : f.omit_empty_values && (evalStructValue f ctx v).isNull
    · simp [hb, ih]
    · simp [hb, ih]

lemma structFormatListElems_eq_filter {γ : Type} (f : StructFormatterBase γ)
    (ctx : γ) : ∀ l, structFormatListElems f ctx l =
      (l.map (evalStructValue f ctx)).filter
        (fun v => !(f.omit_empty_values && v.isNull)) := by
  intro l
  induction l with
  | nil => rfl
  | cons v rest ih =>
    simp only [structFormatListElems, List.map_cons, List.filter_cons]
    by_cases hb : f.omit_empty_values && (evalStructValue f ctx v).isNull
    · simp [hb, ih]
    · simp [hb, ih]

lemma charsLt_trans : ∀ (a b c : List Char), charsLt a b = true →
    charsLt b c = true → charsLt a c = true := by
  intro a
  induction a with
  | nil =>
    intro b c hab hbc
    match b, c with
    | [], _ => simp [charsLt] at hab
    | _ :: _, [] => simp [charsLt] at hbc
    | _ :: _, _ :: _ => simp [charsLt]
  | cons x xs ih =>
    intro b c hab hbc
    match b, c with
    | [], _ => simp [charsLt] at hab
    | _ :: _, [] => simp [charsLt] at hbc
    | y :: ys, z :: zs =>
      simp only [charsLt] at hab hbc ⊢
      by_cases hxy : x < y
      · by_cases hyz : y < z
        · rw [if_pos (lt_trans hxy hyz)]
        · rw [if_neg hyz] at hbc
          by_cases hzy : z < y
          · rw [if_pos hzy] at hbc
            exact absurd hbc (by simp)
          · have : y = z := le_antisymm (le_of_not_lt hzy) (le_of_not_lt hyz)
            subst this
            rw [if_pos hxy]
      · rw [if_neg hxy] at hab
        by_cases hyx : y < x
        · rw [if_pos hyx] at hab
          exact absurd hab (by simp)
        · have : x = y := le_antisymm (le_of_not_lt hyx) (le_of_not_lt hxy)
          subst this
          rw [if_neg hxy] at hab
          by_cases hyz : x < z
          · rw [if_pos hyz]
          · rw [if_neg hyz] at hbc ⊢
            by_cases hzy : z < x
            · rw [if_pos hzy] at hbc
              exact absurd hbc (by simp)
            · rw [if_neg hzy] at hbc ⊢
              exact ih ys zs hab hbc

lemma strLt_trans {a b c : String} (hab : strLt a b = true)
    (hbc : strLt b c = true) : strLt a c = true :=
  charsLt_trans a.data b.data c.data hab hbc

lemma charsLt_antisymm_eq : ∀ (a b : List Char), charsLt a b = false →
    charsLt b a = false → a = b := by
  intro a
  induction a with
  | nil =>
    intro b hab hba
    match b with
    | [] => rfl
    | _ :: _ => simp [charsLt] at hab
  | cons x xs ih =>
    intro b hab hba
    match b with
    | [] => simp [charsLt] at hba
    | y :: ys =>
      simp only [charsLt] at hab hba
      by_cases hxy : x < y
      · rw [if_pos hxy] at hab
        exact absurd hab (by simp)
      · by_cases hyx : y < x
        · rw [if_pos hyx] at hba
          exact absurd hba (by simp)
        · have hx : x = y := le_antisymm (le_of_not_lt hyx) (le_of_not_lt hxy)
          subst hx
          rw [if_neg hxy, if_neg hxy] at hab hba
          rw [ih ys hab hba]

lemma strLt_antisymm_eq {a b : String} (hab : strLt a b = false)
    (hba : strLt b a = false) : a = b := by
  cases a
  cases b
  exact congrArg String.mk (charsLt_antisymm_eq _ _ hab hba)

lemma mem_mapEmplace {α : Type} (k : String) (v : α) :
    ∀ (l : List (String × α)) b, b ∈ mapEmplace k v l → b = (k, v) ∨ b ∈ l := by
  intro l
  induction l with
  | nil =>
    intro b hb
    simp [mapEmplace] at hb
    exact Or.inl hb
  | cons kv rest ih =>
    rcases kv with ⟨k', v'⟩
    intro b hb
    simp only [mapEmplace] at hb
    by_cases h1 : strLt k k'
    · rw [if_pos h1] at hb
      rcases List.mem_cons.mp hb with h | h
      · exact Or.inl h
      · exact Or.inr h
    · rw [if_neg h1] at hb
      by_cases h2 : strLt k' k
      · rw [if_pos h2] at hb
        rcases List.mem_cons.mp hb with h | h
        · exact Or.inr (by simp [h])
        · rcases ih b h with h3 | h3
          · exact Or.inl h3
          · exact Or.inr (by simp [h3])
      · rw [if_neg h2] at hb
        exact Or.inr hb

lemma pairwise_mapEmplace {α : Type} (k : String) (v : α) :
    ∀ (l : List (String × α)),
      l.Pairwise (fun a b => strLt a.1 b.1 = true) →
      (mapEmplace k v l).Pairwise (fun a b => strLt a.1 b.1 = true) := by
  intro l
  induction l with
  | nil => intro _; simp [mapEmplace]
  | cons kv rest ih =>
    rcases kv with ⟨k', v'⟩
    intro hs
    rw [List.pairwise_cons] at hs
    rcases hs with ⟨hhead, htail⟩
    simp only [mapEmplace]
    by_cases h1 : strLt k k'
    · rw [if_pos h1]
      refine List.Pairwise.cons ?_ (List.Pairwise.cons hhead htail)
      intro b hb
      rcases List.mem_cons.mp hb with h | h
      · rw [h]
        exact h1
      · exact strLt_trans h1 (hhead b h)
    · rw [if_neg h1]
      by_cases h2 : strLt k' k
      · rw [if_pos h2]
        refine List.Pairwise.cons ?_ (ih htail)
        intro b hb
        rcases mem_mapEmplace k v rest b hb with h | h
        · rw [h]
          exact h2
        · exact hhead b h
      · rw [if_neg h2]
        exact List.Pairwise.cons hhead htail

lemma toFormatMapValue_sorted {γ : Type} (bl us : List (CommandParser γ))
    (fb : String → String → Option Nat → Provider γ) :
    ∀ (fields : List (String × TemplateValue))
      (acc out : List (String × StructFormatValue γ)),
      acc.Pairwise (fun a b => strLt a.1 b.1 = true) →
      toFormatMapValue bl us fb acc fields = .ok out →
      out.Pairwise (fun a b => strLt a.1 b.1 = true) := by
  intro fields
  induction fields with
  | nil =>
    intro acc out hs h
    simp only [toFormatMapValue] at h
    rw [← Except.ok.inj h]
    exact hs
  | cons kv rest ih =>
    rcases kv with ⟨k, v⟩
    intro acc out hs h
    simp only [toFormatMapValue] at h
    split at h
    next => exact absurd h (by simp)
    next cv hcv =>
      exact ih (mapEmplace k cv acc) out (pairwise_mapEmplace k cv acc hs) h

lemma structFormatMapFields_keys_sublist {γ : Type} (f : StructFormatterBase γ)
    (ctx : γ) : ∀ m, ((structFormatMapFields f ctx m).map Prod.fst).Sublist
      (m.map Prod.fst) := by
  intro m
  induction m with
  | nil => simp [structFormatMapFields]
  | cons kv rest ih =>
    rcases kv with ⟨k, v⟩
    simp only [structFormatMapFields, List.map_cons]
    by_cases hb : f.omit_empty_values && (evalStructValue f ctx v).isNull
    · rw [if_pos hb]
      exact List.Sublist.cons k ih
    · rw [if_neg hb]
      simp only [List.map_cons]
      exact List.Sublist.cons₂ k ih

lemma formatWithContext_keys_pairwise {γ : Type} (f : StructFormatterBase γ)
    (hs : f.struct_output_format.Pairwise (fun a b => strLt a.1 b.1 = true))
    (ctx : γ) :
    ((f.formatWithContext ctx).map Prod.fst).Pairwise
      (fun a b => strLt a b = true) := by
  have hkeys : (f.struct_output_format.map Prod.fst).Pairwise
      (fun a b => strLt a b = true) := List.Pairwise.map Prod.fst (fun a b h => h) hs
  unfold StructFormatterBase.formatWithContext structFormatMapCallback
  show List.Pairwise (fun a b => strLt a b = true)
    (List.map Prod.fst
      (if (f.omit_empty_values &&
            (structFormatMapFields f ctx f.struct_output_format).isEmpty) = true
       then Value.null
       else Value.struct (structFormatMapFields f ctx f.struct_output_format)).structValue)
  split
  next => simp [Value.structValue]
  next =>
    simp only [Value.structValue]
    exact List.Pairwise.sublist (structFormatMapFields_keys_sublist f ctx _) hkeys

lemma insertionSortStr_sorted_id :
    ∀ l : List String, l.Pairwise (fun a b => strLt a b = true) →
      insertionSortStr l = l := by
  intro l
  induction l with
  | nil => intro _; rfl
  | cons s rest ih =>
    intro hs
    rw [List.pairwise_cons] at hs
    rcases hs with ⟨hhead, htail⟩
    simp only [insertionSortStr, ih htail]
    match rest, hhead with
    | [], _ => rfl
    | t :: rest2, hhead =>
      simp only [sortedInsert, if_pos (hhead t (by simp))]

lemma data_eq_nil_of_isEmpty {s : String} (h : s.isEmpty = true) : s.data = [] := by
  rw [(String.isEmpty_iff s).mp h]

lemma data_ne_nil_of_not_isEmpty {s : String} (h : ¬ s.isEmpty = true) :
    s.data ≠ [] := by
  intro hd
  apply h
  apply (String.isEmpty_iff s).mpr
  cases s
  simp at hd
  rw [hd]

/-- C7: for every format string containing no `%` character,
`SubstitutionFormatParser::parse` returns exactly one plain-string provider
whose literal equals the whole input; in particular the empty format yields a
single provider holding the empty literal, never an empty plan. -/
theorem claim7_literal_only {γ : Type} (bl us : List (CommandParser γ))
    (fb : String → String → Option Nat → Provider γ) (format : String)
    (h : ∀ c ∈ format.data, c ≠ '%') :
    SubstitutionFormatParser.parse bl us fb format =
      .ok [Provider.plainString format] := by
  unfold SubstitutionFormatParser.parse
  split
  next he =>
    rw [(String.isEmpty_iff format).mp he]
  next he =>
    rw [parseAux_no_percent format.data.length format.data 0 [] (le_refl _) h]
    have hne : format.data ≠ [] := data_ne_nil_of_not_isEmpty he
    rw [List.nil_append]
    rw [if_neg (by simpa using hne)]

/-- Witness for C7 at the concrete format `"abc"`. -/
theorem claim7_witness :
    SubstitutionFormatParser.parse ([] : List (CommandParser Unit)) [] noneFallback
      "abc" = .ok [Provider.plainString "abc"] :=
  claim7_literal_only [] [] noneFallback "abc" (by decide)

/-- C6: a `%%` pair is an escape for a single literal `%` and never a token
boundary: `parse "%%"` yields one plain provider with literal `"%"`,
`parse "100%%"` yields one with literal `"100%"`, and in general a `%%`
between two command-free stretches of text yields the single literal with the
pair collapsed to one `%`. -/
theorem claim6_percent_escape {γ : Type} (bl us : List (CommandParser γ))
    (fb : String → String → Option Nat → Provider γ) :
    SubstitutionFormatParser.parse bl us fb "%%" =
      .ok [Provider.plainString "%"] ∧
    SubstitutionFormatParser.parse bl us fb "100%%" =
      .ok [Provider.plainString "100%"] ∧
    (∀ pre post : List Char, (∀ c ∈ pre, c ≠ '%') → (∀ c ∈ post, c ≠ '%') →
      SubstitutionFormatParser.parse bl us fb
          (String.mk (pre ++ '%' :: '%' :: post)) =
        .ok [Provider.plainString (String.mk (pre ++ '%' :: post))]) := by
  refine ⟨rfl, rfl, ?_⟩
  intro pre post hpre hpost
  unfold SubstitutionFormatParser.parse
  split
  next he =>
    exfalso
    have := data_eq_nil_of_isEmpty he
    simp at this
  next he =>
    rw [show (String.mk (pre ++ '%' :: '%' :: post)).data =
      pre ++ '%' :: '%' :: post from rfl]
    rw [parseAux_escape pre _ 0 [] post hpre hpost
      (by simp [List.length_append]; omega)]
    simp

/-- Witness for C6's generalised escape part at `pre = "ab"`, `post = "c"`. -/
theorem claim6_witness :
    SubstitutionFormatParser.parse ([] : List (CommandParser Unit)) [] noneFallback
      (String.mk ['a', 'b', '%', '%', 'c']) =
      .ok [Provider.plainString (String.mk ['a', 'b', '%', 'c'])] :=
  (claim6_percent_escape [] [] noneFallback).2.2 ['a', 'b'] ['c']
    (by decide) (by decide)

/-- C9: whenever `SubstitutionFormatParser::parse` succeeds the returned
provider sequence is non-empty, even for a format made only of command tokens
or for the empty format (the invariant the structured evaluator's
`ASSERT(!providers.empty())` relies on). -/
theorem claim9_plan_nonempty {γ : Type} (bl us : List (CommandParser γ))
    (fb : String → String → Option Nat → Provider γ) (format : String)
    (ps : List (Provider γ))
    (h : SubstitutionFormatParser.parse bl us fb format = .ok ps) : ps ≠ [] := by
  unfold SubstitutionFormatParser.parse at h
  split at h
  next =>
    rw [← Except.ok.inj h]
    simp
  next he =>
    exact parseAux_ok_ne_nil format.data.length format.data 0 [] ps
      (Or.inr (data_ne_nil_of_not_isEmpty he)) h

/-- Witness for C9 at the empty format. -/
theorem claim9_witness : ([Provider.plainString ""] : List (Provider Unit)) ≠ [] :=
  claim9_plan_nonempty ([] : List (CommandParser Unit)) [] noneFallback ""
    [Provider.plainString ""] rfl

/-- Counterexample to C8 as stated: the format `"%A:18446744073709551616% %"`
contains an unescaped `%` at position 25 at which no prefix matches the
command grammar (the scan reports exactly that position), yet parse raises
the `absl::SimpleAtoi` failure "Length must be an integer, given:
18446744073709551616" for the over-size_t LENGTH of the first token — not an
error reporting that no valid command was found at position 25. -/
theorem claim8_counterexample :
    specScanError "%A:18446744073709551616% %" = some 25 ∧
    SubstitutionFormatParser.parse ([] : List (CommandParser Unit)) [] noneFallback
      "%A:18446744073709551616% %" =
      .error (.lengthNotInteger "18446744073709551616") ∧
    (FormatError.lengthNotInteger "18446744073709551616").message =
      "Length must be an integer, given: 18446744073709551616" ∧
    FormatError.lengthNotInteger "18446744073709551616" ≠
      FormatError.noValidCommand "%A:18446744073709551616% %" 25 :=
  ⟨rfl, rfl, rfl, fun h => FormatError.noConfusion h⟩

/-- C8 (amended): a format whose scan reaches an unescaped `%` with no
grammar-matching prefix is always rejected at compile time, never treated as
literal text, and the error reports "no valid command found at position P"
for exactly that scan position — unless the scan first hits a command token
whose all-digit LENGTH overflows `size_t`, which is instead rejected with
"Length must be an integer".  Conversely every error parse raises is one of
those two: `noValidCommand` carrying the scan's first failing position and
the message naming the format and the position, or `lengthNotInteger`
carrying an over-size_t digit run and the message naming it. -/
theorem claim8_error_position {γ : Type} (bl us : List (CommandParser γ))
    (fb : String → String → Option Nat → Provider γ) (format : String) :
    (∀ e, SubstitutionFormatParser.parse bl us fb format = .error e →
      (∃ P, e = .noValidCommand format P ∧ specScanError format = some P ∧
        e.message = "Incorrect configuration: " ++ format ++
          ". Couldn't find valid command at position " ++ toString P) ∨
      (∃ digits, e = .lengthNotInteger (String.mk digits) ∧
        sizeTCount ≤ digitsToNat digits ∧
        e.message = "Length must be an integer, given: " ++ String.mk digits)) ∧
    (∀ P, specScanError format = some P →
      SubstitutionFormatParser.parse bl us fb format =
        .error (.noValidCommand format P) ∨
      ∃ s, SubstitutionFormatParser.parse bl us fb format =
        .error (.lengthNotInteger s)) := by
  constructor
  · intro e h
    unfold SubstitutionFormatParser.parse at h
    split at h
    next => exact absurd h (by simp)
    next he =>
      rcases (parseAux_specScan format.data.length format.data 0 []
          (le_refl _)).1 e h with ⟨P, hP, hs⟩ | ⟨digits, hd, hge⟩
      · exact Or.inl ⟨P, hP, hs, by rw [hP]; rfl⟩
      · exact Or.inr ⟨digits, hd, hge, by rw [hd]; rfl⟩
  · intro P h
    unfold SubstitutionFormatParser.parse
    split
    next he =>
      exfalso
      unfold specScanError at h
      rw [data_eq_nil_of_isEmpty he] at h
      simp only [List.length_nil, specScanErrorAux] at h
      exact Option.noConfusion h
    next he =>
      exact (parseAux_specScan format.data.length format.data 0 []
        (le_refl _)).2 P h

/-- Witness for C8 (amended) at the concrete format `"ab%cd"`: the scan fails
at position 2, no LENGTH is involved, and parse reports exactly that
position. -/
theorem claim8_witness :
    SubstitutionFormatParser.parse ([] : List (CommandParser Unit)) [] noneFallback
      "ab%cd" = .error (.noValidCommand "ab%cd" 2) := by
  rcases (claim8_error_position ([] : List (CommandParser Unit)) [] noneFallback
      "ab%cd").2 2 rfl with h | ⟨s, h⟩
  · exact h
  · rw [show SubstitutionFormatParser.parse ([] : List (CommandParser Unit)) []
        noneFallback "ab%cd" = .error (.noValidCommand "ab%cd" 2) from rfl] at h
    exact absurd (Except.error.inj h) (fun hh => FormatError.noConfusion hh)

/-- Command parser claiming the command name `DUP` with a recognisable
provider, used as a built-in entry in witnesses. -/
def builtinDupParser : CommandParser Unit :=
  ⟨fun cmd _ _ => if cmd = "DUP" then some (.plainString "builtin") else none⟩

/-- Command parser claiming the same command name `DUP` with a different
provider, used as a user-supplied entry in witnesses. -/
def userDupParser : CommandParser Unit :=
  ⟨fun cmd _ _ => if cmd = "DUP" then some (.plainString "user") else none⟩

/-- C2: `SubstitutionFormatParser::parse` resolves each command token by
trying the built-in command parsers first, then the caller-supplied parsers in
order, and falls back to the context-independent provider only when none of
them returned one; in particular a built-in parser claiming a command always
beats a user-supplied parser claiming the same command. -/
theorem claim2_resolver_precedence {γ : Type} (bl us : List (CommandParser γ))
    (fb : String → String → Option Nat → Provider γ)
    (command subcommand : String) (maxLength : Option Nat) :
    (∀ p, bl.findSome? (fun cp => cp.parse command subcommand maxLength) = some p →
      resolveCommand bl us fb command subcommand maxLength = p) ∧
    (∀ p, bl.findSome? (fun cp => cp.parse command subcommand maxLength) = none →
      us.findSome? (fun cp => cp.parse command subcommand maxLength) = some p →
      resolveCommand bl us fb command subcommand maxLength = p) ∧
    (bl.findSome? (fun cp => cp.parse command subcommand maxLength) = none →
      us.findSome? (fun cp => cp.parse command subcommand maxLength) = none →
      resolveCommand bl us fb command subcommand maxLength =
        fb command subcommand maxLength) ∧
    (∀ (b u : CommandParser γ) (pb pu : Provider γ)
        (bl2 us2 : List (CommandParser γ)),
      b.parse command subcommand maxLength = some pb →
      u.parse command subcommand maxLength = some pu →
      resolveCommand (b :: bl2) (u :: us2) fb command subcommand maxLength = pb) ∧
    SubstitutionFormatParser.parse bl us fb "%FOO(BAR):5%" =
      .ok [resolveCommand bl us fb "FOO" "BAR" (some 5)] := by
  refine ⟨?_, ?_, ?_, ?_, rfl⟩
  · intro p hp
    unfold resolveCommand
    rw [hp]
  · intro p hb hu
    unfold resolveCommand
    rw [hb, hu]
  · intro hb hu
    unfold resolveCommand
    rw [hb, hu]
  · intro b u pb pu bl2 us2 hb hu
    unfold resolveCommand
    simp only [List.findSome?_cons, hb]

/-- Witness for C2: with a built-in and a user parser both claiming `DUP`,
resolution returns the built-in's provider. -/
theorem claim2_witness :
    resolveCommand [builtinDupParser] [userDupParser] noneFallback
      "DUP" "" none = Provider.plainString "builtin" :=
  (claim2_resolver_precedence [builtinDupParser] [userDupParser] noneFallback
    "DUP" "" none).2.2.2.1 builtinDupParser userDupParser
    (Provider.plainString "builtin") (Provider.plainString "user") [] [] rfl rfl

/-- C1: flat evaluation (`CommonFormatterBaseImpl::formatWithContext`) is the
in-order concatenation of the providers' texts with the configured empty-value
string (the default `"-"`) substituted for every provider yielding none; and
compiling any format with the default placeholder, then evaluating against a
context where no command produces a value, yields exactly the format's literal
text with every command token replaced by `-` (and `%%` collapsed to `%`). -/
theorem claim1_flat_concatenation {γ : Type} (bl us : List (CommandParser γ))
    (fb : String → String → Option Nat → Provider γ) (format : String) (ctx : γ) :
    (∀ f : CommonFormatterBaseImpl γ, f.formatWithContext ctx =
      String.join (f.providers.map
        (fun p => (p.formatWithContext ctx).getD f.empty_value_string))) ∧
    (∀ f : CommonFormatterBaseImpl γ,
      (∀ cmd sub len,
        (resolveCommand bl us fb cmd sub len).formatWithContext ctx = none) →
      CommonFormatterBaseImpl.mk' bl fb format false us = .ok f →
      renderWithPlaceholder "-" format = some (f.formatWithContext ctx)) := by
  have hA : ∀ f : CommonFormatterBaseImpl γ, f.formatWithContext ctx =
      String.join (f.providers.map
        (fun p => (p.formatWithContext ctx).getD f.empty_value_string)) := by
    intro f
    unfold CommonFormatterBaseImpl.formatWithContext
    rw [foldl_append_eq_join, String.empty_append]
  refine ⟨hA, ?_⟩
  intro f hnone hok
  unfold CommonFormatterBaseImpl.mk' at hok
  split at hok
  next => exact absurd hok (by simp)
  next ps hps =>
    have hf := Except.ok.inj hok
    rw [hA f, ← hf]
    show renderWithPlaceholder "-" format =
      some (String.join (ps.map (fun p => (p.formatWithContext ctx).getD "-")))
    unfold SubstitutionFormatParser.parse at hps
    split at hps
    next he =>
      rw [(String.isEmpty_iff format).mp he, ← Except.ok.inj hps]
      rfl
    next he =>
      obtain ⟨r, hr, hj⟩ := parseAux_render ctx "-" hnone format.data.length
        format.data 0 [] ps (le_refl _) hps
      rw [hj, strmk_nil_append]
      unfold renderWithPlaceholder
      rw [hr]

/-- Flat formatter compiled from `"a%FOO%b"` with the default placeholder over
the trivial context, used in the C1 witness. -/
def c1Formatter : CommonFormatterBaseImpl Unit :=
  ⟨"-", [Provider.plainString "a", noneProvider, Provider.plainString "b"]⟩

/-- Witness for C1: compiling `"a%FOO%b"` and evaluating it where `FOO`
produces nothing renders as the spec-side substitution (namely `"a-b"`). -/
theorem claim1_witness :
    renderWithPlaceholder "-" "a%FOO%b" = some (c1Formatter.formatWithContext ()) :=
  (claim1_flat_concatenation [] [] noneFallback "a%FOO%b" ()).2 c1Formatter
    (fun _ _ _ => rfl) rfl

/-- Structured formatter options with `preserve_types` set (empty root), used
in witnesses. -/
def typedStructFormatter : StructFormatterBase Unit := ⟨false, true, "-", []⟩

/-- Structured formatter options with `omit_empty_values` set (empty root),
used in witnesses. -/
def omitStructFormatter : StructFormatterBase Unit := ⟨true, false, "", []⟩

/-- C3: a scalar leaf whose flat plan has exactly one provider yields, under
`preserve_types`, the provider's typed value directly (a numeric provider
yields a numeric value); a scalar leaf with two or more providers always
yields a string value, the placeholder-substituted concatenation of the
providers' texts, regardless of `preserve_types`. -/
theorem claim3_scalar_leaf_typing {γ : Type} (f : StructFormatterBase γ) (ctx : γ) :
    (∀ p : Provider γ, f.preserve_types = true →
      providersCallback f [p] ctx = p.formatValueWithContext ctx) ∧
    (∀ n : Int, f.preserve_types = true →
      providersCallback f [Provider.plainNumber n] ctx = Value.num n) ∧
    (∀ (p q : Provider γ) (ps : List (Provider γ)),
      providersCallback f (p :: q :: ps) ctx =
        Value.str (String.join ((p :: q :: ps).map
          (fun pr => (pr.formatWithContext ctx).getD f.empty_value)))) := by
  refine ⟨fun p hp => providersCallback_single_preserve f ctx p hp,
    fun n hp => ?_, fun p q ps => providersCallback_multi f ctx p q ps⟩
  rw [providersCallback_single_preserve f ctx _ hp]
  rfl

/-- Witness for C3: a numeric single-provider leaf stays numeric under
`preserve_types`, and a two-provider leaf is a concatenated string even under
`preserve_types`. -/
theorem claim3_witness :
    providersCallback typedStructFormatter [Provider.plainNumber 5] () =
      Value.num 5 ∧
    providersCallback typedStructFormatter
      [Provider.plainString "a", Provider.plainString "b"] () =
      Value.str (String.join ["a", "b"]) :=
  ⟨(claim3_scalar_leaf_typing typedStructFormatter ()).2.1 5 rfl,
   (claim3_scalar_leaf_typing typedStructFormatter ()).2.2
     (Provider.plainString "a") (Provider.plainString "b") []⟩

/-- C4: with `omit_empty_values` set the structured evaluator drops exactly
the map fields and list elements whose value is the null marker (order of
survivors preserved, captured by the filter characterisations); a map with no
surviving field collapses to the null marker (and map nodes evaluate through
`structFormatMapCallback`, so the collapse propagates upward), while a list
node always stays a list value — an all-dropped list is the empty list, never
null. -/
theorem claim4_omit_empty_semantics {γ : Type} (f : StructFormatterBase γ)
    (homit : f.omit_empty_values = true) (ctx : γ) :
    (∀ m, structFormatMapFields f ctx m =
      (m.map (fun kv => (kv.1, evalStructValue f ctx kv.2))).filter
        (fun kv => !kv.2.isNull)) ∧
    (∀ m, evalStructValue f ctx (.map m) = structFormatMapCallback f ctx m) ∧
    (∀ m, structFormatMapFields f ctx m = [] →
      structFormatMapCallback f ctx m = Value.null) ∧
    (∀ m, structFormatMapFields f ctx m ≠ [] →
      structFormatMapCallback f ctx m =
        Value.struct (structFormatMapFields f ctx m)) ∧
    (∀ l, evalStructValue f ctx (.list l) =
      Value.list ((l.map (evalStructValue f ctx)).filter
        (fun v => !v.isNull))) ∧
    (∀ l, evalStructValue f ctx (.list l) ≠ Value.null) := by
  refine ⟨?_, fun m => rfl, ?_, ?_, ?_, ?_⟩
  · intro m
    rw [structFormatMapFields_eq_filter]
    simp [homit]
  · intro m hm
    unfold structFormatMapCallback
    rw [hm]
    simp [homit]
  · intro m hm
    unfold structFormatMapCallback
    rw [if_neg (by simp [homit, List.isEmpty_iff, hm])]
  · intro l
    show Value.list (structFormatListElems f ctx l) = _
    rw [structFormatListElems_eq_filter]
    simp [homit]
  · intro l
    show Value.list (structFormatListElems f ctx l) ≠ Value.null
    exact fun h => Value.noConfusion h

/-- Witness for C4: a one-field map whose only field is null collapses to the
null marker; a list of two null elements stays the empty list value. -/
theorem claim4_witness :
    structFormatMapCallback omitStructFormatter ()
      [("k", .providers [noneProvider])] = Value.null ∧
    evalStructValue omitStructFormatter ()
      (.list [.providers [noneProvider], .providers [noneProvider]]) =
      Value.list [] ∧
    evalStructValue omitStructFormatter ()
      (.list [.providers [noneProvider], .providers [noneProvider]]) ≠
      Value.null :=
  ⟨(claim4_omit_empty_semantics omitStructFormatter rfl ()).2.2.1
     [("k", .providers [noneProvider])] rfl,
   by
    rw [(claim4_omit_empty_semantics omitStructFormatter rfl ()).2.2.2.2.1
      [.providers [noneProvider], .providers [noneProvider]]]
    rfl,
   (claim4_omit_empty_semantics omitStructFormatter rfl ()).2.2.2.2.2
     [.providers [noneProvider], .providers [noneProvider]]⟩

lemma join_map_getD_all_none {γ : Type} (ctx : γ) :
    ∀ l : List (Provider γ), (∀ pr ∈ l, pr.formatWithContext ctx = none) →
      String.join (l.map (fun pr => (pr.formatWithContext ctx).getD "")) = "" := by
  intro l
  induction l with
  | nil => intro _; rfl
  | cons pr rest ih =>
    intro hall
    rw [List.map_cons, join_cons, hall pr (by simp),
      ih (fun x hx => hall x (by simp [hx]))]
    rfl

/-- C10: with `omit_empty_values` set (where the configured empty value is the
empty string, as the constructor arranges), a scalar leaf with two or more
providers that all yield no value evaluates to the empty-string value `""`,
which is not the null marker, and is therefore kept by the enclosing map or
list rather than omitted. -/
theorem claim10_multi_empty_retained {γ : Type} (f : StructFormatterBase γ)
    (homit : f.omit_empty_values = true) (hev : f.empty_value = "") (ctx : γ)
    (p q : Provider γ) (ps : List (Provider γ))
    (hall : ∀ pr ∈ p :: q :: ps, pr.formatWithContext ctx = none) :
    providersCallback f (p :: q :: ps) ctx = Value.str "" ∧
    Value.isNull (Value.str "") = false ∧
    (∀ k rest, structFormatMapFields f ctx
        ((k, .providers (p :: q :: ps)) :: rest) =
      (k, Value.str "") :: structFormatMapFields f ctx rest) ∧
    (∀ rest, structFormatListElems f ctx (.providers (p :: q :: ps) :: rest) =
      Value.str "" :: structFormatListElems f ctx rest) ∧
    (∀ (bl us : List (CommandParser γ))
        (fb : String → String → Option Nat → Provider γ)
        (doc : List (String × TemplateValue)) (pt : Bool)
        (f' : StructFormatterBase γ),
      StructFormatterBase.mk' bl us fb doc pt true = .ok f' →
      f'.empty_value = "") := by
  have hstr : providersCallback f (p :: q :: ps) ctx = Value.str "" := by
    rw [providersCallback_multi]
    rw [hev]
    rw [join_map_getD_all_none ctx (p :: q :: ps) hall]
  refine ⟨hstr, rfl, ?_, ?_, ?_⟩
  · intro k rest
    show (if f.omit_empty_values &&
        (evalStructValue f ctx (.providers (p :: q :: ps))).isNull
      then structFormatMapFields f ctx rest
      else (k, evalStructValue f ctx (.providers (p :: q :: ps))) ::
        structFormatMapFields f ctx rest) = _
    rw [show evalStructValue f ctx (.providers (p :: q :: ps)) =
      Value.str "" from hstr]
    rw [if_neg (by simp [Value.isNull])]
  · intro rest
    show (if f.omit_empty_values &&
        (evalStructValue f ctx (.providers (p :: q :: ps))).isNull
      then structFormatListElems f ctx rest
      else evalStructValue f ctx (.providers (p :: q :: ps)) ::
        structFormatListElems f ctx rest) = _
    rw [show evalStructValue f ctx (.providers (p :: q :: ps)) =
      Value.str "" from hstr]
    rw [if_neg (by simp [Value.isNull])]
  · intro bl us fb doc pt f' hok
    unfold StructFormatterBase.mk' at hok
    split at hok
    next => exact absurd hok (by simp)
    next root hr =>
      rw [← Except.ok.inj hok]
      rfl


/-- Witness for C10: two absent providers under `omit_empty_values` give the
empty-string value, retained as a map field. -/
theorem claim10_witness :
    providersCallback omitStructFormatter [noneProvider, noneProvider] () =
      Value.str "" ∧
    structFormatMapFields omitStructFormatter ()
      [("k", .providers [noneProvider, noneProvider])] =
      [("k", Value.str "")] :=
  ⟨(claim10_multi_empty_retained omitStructFormatter rfl rfl ()
      noneProvider noneProvider [] (by intro pr hpr; fin_cases hpr <;> rfl)).1,
   by
    rw [(claim10_multi_empty_retained omitStructFormatter rfl rfl ()
      noneProvider noneProvider [] (by intro pr hpr; fin_cases hpr <;> rfl)).2.2.1
      "k" []]
    rfl⟩

/-- C5 (amended): the compiled template map is a key-sorted `std::map`, so for
every map template — whatever the declaration order of its keys — the
evaluated output's object keys appear in lexicographic order, and the
serializer's sort-keys option cannot change that order (sorting an
already-sorted key list is the identity): key order is lexicographic with the
option disabled and enabled alike, not the template's declaration order. -/
theorem claim5_keys_lexicographic {γ : Type} (bl us : List (CommandParser γ))
    (fb : String → String → Option Nat → Provider γ)
    (doc : List (String × TemplateValue)) (pt oe : Bool)
    (f : StructFormatterBase γ)
    (hok : StructFormatterBase.mk' bl us fb doc pt oe = .ok f) (ctx : γ)
    (sp : Bool) :
    ((f.formatWithContext ctx).map Prod.fst).Pairwise
      (fun a b => strLt a b = true) ∧
    serializedKeyOrder sp (f.formatWithContext ctx) =
      (f.formatWithContext ctx).map Prod.fst := by
  have hroot : f.struct_output_format.Pairwise
      (fun a b => strLt a.1 b.1 = true) := by
    unfold StructFormatterBase.mk' at hok
    split at hok
    next => exact absurd hok (by simp)
    next root hr =>
      rw [← Except.ok.inj hok]
      exact toFormatMapValue_sorted bl us fb doc [] root (by simp) hr
  have hkeys := formatWithContext_keys_pairwise f hroot ctx
  refine ⟨hkeys, ?_⟩
  unfold serializedKeyOrder
  split
  next => exact insertionSortStr_sorted_id _ hkeys
  next => rfl

/-- Counterexample to C5 as stated: a template declaring its keys in the order
`b`, `c`, `a` evaluates, with the sort-keys option disabled, to an object
whose keys come out `a`, `b`, `c` — lexicographic, not declaration order. -/
theorem claim5_counterexample :
    structKeysOfResult false
      (StructFormatterBase.mk' [] [] noneFallback
        [("b", .stringV "x"), ("c", .stringV "y"), ("a", .stringV "z")]
        false false) = ["a", "b", "c"] ∧
    (["a", "b", "c"] : List String) ≠ ["b", "c", "a"] :=
  ⟨rfl, by decide⟩

/-- Structured formatter compiled from the out-of-order template of the C5
counterexample (keys already emplaced in sorted order). -/
def c5Formatter : StructFormatterBase Unit :=
  ⟨false, false, "-",
    [("a", .providers [Provider.plainString "z"]),
     ("b", .providers [Provider.plainString "x"]),
     ("c", .providers [Provider.plainString "y"])]⟩

/-- Witness for C5 (amended) on the concrete out-of-order template, with the
sort option enabled. -/
theorem claim5_witness :
    ((c5Formatter.formatWithContext ()).map Prod.fst).Pairwise
      (fun a b => strLt a b = true) ∧
    serializedKeyOrder true (c5Formatter.formatWithContext ()) =
      (c5Formatter.formatWithContext ()).map Prod.fst :=
  claim5_keys_lexicographic [] [] noneFallback
    [("b", .stringV "x"), ("c", .stringV "y"), ("a", .stringV "z")] false false
    c5Formatter rfl () true

end EnvoyFormatter
